import Mathlib

/-!
Verification of the ha-bvk repository's read service (`src/api/app.js`) and,
where the scraper core is specified but its source is external, of the
spec-described Reading Parser and Validation Engine.

The HTTP read service is embedded shallowly: the data directory is a map
from file names to file states, handlers are programs over a small
file-system effect language (reads and writes), and JSON decoding is an
abstract parameter `decode : String → Option Json` standing for the
platform's `JSON.parse` (returning `none` exactly when `JSON.parse` would
throw a `SyntaxError`).
-/

set_option autoImplicit false

namespace HaBvk

/-- A JSON value, the shape of data served by the API. Numbers are modelled
as integers; the repository's persisted records only contain strings. -/
inductive Json where
  | null
  | bool (b : Bool)
  | num (n : Int)
  | str (s : String)
  | arr (elems : List Json)
  | obj (fields : List (String × Json))

/-- Field lookup on a JSON object (`none` on non-objects and absent keys). -/
def Json.getField : Json → String → Option Json
  | .obj fields, key => fields.lookup key
  | _, _ => none

/-- The elements of a JSON array (`[]` on non-arrays). -/
def Json.elems : Json → List Json
  | .arr xs => xs
  | _ => []

/-- State of one file in the data directory: absent (reads fail with code
`ENOENT`), present with string content, or unreadable (reads fail with some
other error code, e.g. `EACCES`). -/
inductive FileState where
  | absent
  | present (content : String)
  | unreadable (code : String)

/-- The data directory: contents keyed by file name. -/
def DataDir := String → FileState

/-- `fs.readFile`: the content on success, otherwise the error code. -/
def readFileFs (d : DataDir) (name : String) : Except String String :=
  match d name with
  | .absent => .error "ENOENT"
  | .unreadable code => .error code
  | .present c => .ok c

/-- `fs.writeFile`: replace the named file's content. -/
def writeFileFs (d : DataDir) (name content : String) : DataDir :=
  fun n => if n = name then .present content else d n

/-- Programs over the file-system effect: return a value, read a file and
continue with the outcome, or write a file and continue. The API handlers
are such programs; the write operation exists in the effect language (the
scraper uses it) so that read-onlyness of the API is a fact, not a
definition. -/
inductive FsProg (α : Type) where
  | pure (a : α)
  | read (name : String) (k : Except String String → FsProg α)
  | write (name : String) (content : String) (k : FsProg α)

/-- Run a file-system program against a data directory, returning its
result and the final directory state. -/
def runFs {α : Type} : FsProg α → DataDir → α × DataDir
  | .pure a, d => (a, d)
  | .read name k, d => runFs (k (readFileFs d name)) d
  | .write name content k, d => runFs k (writeFileFs d name content)

/-- An HTTP response: status code and JSON body. -/
structure HttpResponse where
  status : Nat
  body : Json

/-- The `res.status(s).json(\x7b detail \x7d)` error bodies used by the API. -/
def detailBody (msg : String) : Json := .obj [("detail", .str msg)]

/-- The `GET /` handler from `createApp`. -/
def rootProg : FsProg HttpResponse :=
  .pure { status := 200, body := .obj [("status", .str "ok"), ("service", .str "bvk-scraper-api")] }

/-- The `GET /latest` handler from `createApp`: read `latest.json`; on read
error with code `ENOENT` respond 404, on any other failure (decode failure
or other read error) respond 500 with detail `Error decoding latest.json`;
otherwise serve the decoded value with status 200. -/
def latestProg (decode : String → Option Json) : FsProg HttpResponse :=
  .read "latest.json" fun r =>
    .pure (match r with
      | .ok content =>
        match decode content with
        | some data => { status := 200, body := data }
        | none => { status := 500, body := detailBody "Error decoding latest.json" }
      | .error code =>
        if code = "ENOENT" then
          { status := 404, body := detailBody "latest.json not found" }
        else
          { status := 500, body := detailBody "Error decoding latest.json" })

/-- The `GET /history` handler from `createApp`: like `/latest` but an
absent file yields status 200 with the empty list, and the 500 detail is
`Error decoding history.json`. -/
def historyProg (decode : String → Option Json) : FsProg HttpResponse :=
  .read "history.json" fun r =>
    .pure (match r with
      | .ok content =>
        match decode content with
        | some data => { status := 200, body := data }
        | none => { status := 500, body := detailBody "Error decoding history.json" }
      | .error code =>
        if code = "ENOENT" then
          { status := 200, body := .arr [] }
        else
          { status := 500, body := detailBody "Error decoding history.json" })

/-- The three routes `createApp` registers. -/
inductive Endpoint where
  | root
  | latest
  | history

/-- Route dispatch. -/
def endpointProg (decode : String → Option Json) : Endpoint → FsProg HttpResponse
  | .root => rootProg
  | .latest => latestProg decode
  | .history => historyProg decode

/-- Handle one request: run the route's program on the data directory. -/
def handleRequest (decode : String → Option Json) (e : Endpoint) (d : DataDir) :
    HttpResponse × DataDir :=
  runFs (endpointProg decode e) d

/-- The response of `GET /latest`. -/
def latestHandler (decode : String → Option Json) (d : DataDir) : HttpResponse :=
  (handleRequest decode .latest d).1

/-- The response of `GET /history`. -/
def historyHandler (decode : String → Option Json) (d : DataDir) : HttpResponse :=
  (handleRequest decode .history d).1

/-! Concrete objects used by the witnesses. -/

/-- A decoder that rejects everything (every content malformed). -/
def noneDecode : String → Option Json := fun _ => none

/-- A decoder that accepts everything as a fixed value. -/
def constDecode (j : Json) : String → Option Json := fun _ => some j

/-- The empty data directory. -/
def emptyDir : DataDir := fun _ => .absent

/-- A data directory holding given states for `latest.json` and `history.json`. -/
def dirWith (latest history : FileState) : DataDir :=
  fun n =>
    if n = "latest.json" then latest
    else if n = "history.json" then history
    else .absent

/-- A sample persisted latest record. -/
def sampleLatest : Json :=
  .obj [("timestamp", .str "2026-01-01T00:00:00"), ("reading", .str "123.456")]

/-- A sample persisted history list. -/
def sampleHistory : List Json :=
  [ .obj [("timestamp", .str "2026-01-01T00:00:00"), ("reading", .str "1.000")],
    .obj [("timestamp", .str "2026-01-02T00:00:00"), ("reading", .str "2.000")] ]

/-! Claim theorems about the read service. -/

/-- C1: while `latest.json` is absent from the data directory, every
`GET /latest` request yields HTTP 404 with the explanatory detail body
`latest.json not found`, and the status is not the 200 used to serve a
reading. -/
theorem latest_absent_404 (decode : String → Option Json) (d : DataDir)
    (h : d "latest.json" = .absent) :
    latestHandler decode d = { status := 404, body := detailBody "latest.json not found" } ∧
    (latestHandler decode d).status ≠ 200 := by
  have hresp : latestHandler decode d
      = { status := 404, body := detailBody "latest.json not found" } := by
    simp [latestHandler, handleRequest, endpointProg, latestProg, runFs, readFileFs, h]
  exact ⟨hresp, by rw [hresp]; simp⟩

/-- Witness for C1 at the empty data directory. -/
theorem latest_absent_404_witness :
    emptyDir "latest.json" = FileState.absent ∧
    (latestHandler noneDecode emptyDir
        = { status := 404, body := detailBody "latest.json not found" } ∧
      (latestHandler noneDecode emptyDir).status ≠ 200) :=
  ⟨rfl, latest_absent_404 noneDecode emptyDir rfl⟩

/-- C2: while `latest.json` (resp. `history.json`) exists but its content
does not decode as JSON, `GET /latest` (resp. `GET /history`) yields
HTTP 500 with detail `Error decoding latest.json` (resp.
`Error decoding history.json`), and no data is served. -/
theorem invalid_json_500 (decode : String → Option Json) (d : DataDir)
    (cl ch : String)
    (hl : d "latest.json" = .present cl) (hdl : decode cl = none)
    (hh : d "history.json" = .present ch) (hdh : decode ch = none) :
    latestHandler decode d = { status := 500, body := detailBody "Error decoding latest.json" } ∧
    historyHandler decode d
      = { status := 500, body := detailBody "Error decoding history.json" } := by
  constructor
  · simp [latestHandler, handleRequest, endpointProg, latestProg, runFs, readFileFs, hl, hdl]
  · simp [historyHandler, handleRequest, endpointProg, historyProg, runFs, readFileFs, hh, hdh]

/-- Witness for C2 with both files present but undecodable. -/
theorem invalid_json_500_witness :
    dirWith (.present "x") (.present "y") "latest.json" = FileState.present "x" ∧
    noneDecode "x" = none ∧
    dirWith (.present "x") (.present "y") "history.json" = FileState.present "y" ∧
    noneDecode "y" = none ∧
    (latestHandler noneDecode (dirWith (.present "x") (.present "y"))
        = { status := 500, body := detailBody "Error decoding latest.json" } ∧
      historyHandler noneDecode (dirWith (.present "x") (.present "y"))
        = { status := 500, body := detailBody "Error decoding history.json" }) :=
  ⟨rfl, rfl, rfl, rfl,
    invalid_json_500 noneDecode (dirWith (.present "x") (.present "y")) "x" "y" rfl rfl rfl rfl⟩

/-- C3: while `history.json` is absent, every `GET /history` request yields
HTTP 200 with the empty JSON list as body, not an error signal. -/
theorem history_absent_empty (decode : String → Option Json) (d : DataDir)
    (h : d "history.json" = .absent) :
    historyHandler decode d = { status := 200, body := .arr [] } := by
  simp [historyHandler, handleRequest, endpointProg, historyProg, runFs, readFileFs, h]

/-- Witness for C3 at the empty data directory. -/
theorem history_absent_empty_witness :
    emptyDir "history.json" = FileState.absent ∧
    historyHandler noneDecode emptyDir = { status := 200, body := .arr [] } :=
  ⟨rfl, history_absent_empty noneDecode emptyDir rfl⟩

/-- C4: while `latest.json` holds content that decodes to a JSON value `j`,
`GET /latest` yields HTTP 200 with body exactly `j`; in particular the
`timestamp` and `reading` fields of the served body are those of the parsed
file content, unchanged. -/
theorem latest_valid_served (decode : String → Option Json) (d : DataDir)
    (c : String) (j : Json)
    (hp : d "latest.json" = .present c) (hd : decode c = some j) :
    latestHandler decode d = { status := 200, body := j } ∧
    (latestHandler decode d).body.getField "timestamp" = j.getField "timestamp" ∧
    (latestHandler decode d).body.getField "reading" = j.getField "reading" := by
  have hresp : latestHandler decode d = { status := 200, body := j } := by
    simp [latestHandler, handleRequest, endpointProg, latestProg, runFs, readFileFs, hp, hd]
  exact ⟨hresp, by rw [hresp], by rw [hresp]⟩

/-- Witness for C4 at a sample record. -/
theorem latest_valid_served_witness :
    dirWith (.present "rec") .absent "latest.json" = FileState.present "rec" ∧
    constDecode sampleLatest "rec" = some sampleLatest ∧
    (latestHandler (constDecode sampleLatest) (dirWith (.present "rec") .absent)
        = { status := 200, body := sampleLatest } ∧
      (latestHandler (constDecode sampleLatest) (dirWith (.present "rec") .absent)).body.getField
          "timestamp" = sampleLatest.getField "timestamp" ∧
      (latestHandler (constDecode sampleLatest) (dirWith (.present "rec") .absent)).body.getField
          "reading" = sampleLatest.getField "reading") :=
  ⟨rfl, rfl,
    latest_valid_served (constDecode sampleLatest) (dirWith (.present "rec") .absent)
      "rec" sampleLatest rfl rfl⟩

/-- C5: while `history.json` holds content that decodes to a JSON list
`xs`, `GET /history` yields HTTP 200 with body exactly the list `xs`, in
order; in particular the last stored entry is the last element of the
served body. -/
theorem history_valid_served (decode : String → Option Json) (d : DataDir)
    (c : String) (xs : List Json)
    (hp : d "history.json" = .present c) (hd : decode c = some (.arr xs)) :
    historyHandler decode d = { status := 200, body := .arr xs } ∧
    (historyHandler decode d).body.elems = xs ∧
    (historyHandler decode d).body.elems.getLast? = xs.getLast? := by
  have hresp : historyHandler decode d = { status := 200, body := .arr xs } := by
    simp [historyHandler, handleRequest, endpointProg, historyProg, runFs, readFileFs, hp, hd]
  exact ⟨hresp, by rw [hresp]; rfl, by rw [hresp]; rfl⟩

/-- Witness for C5 at a two-entry history. -/
theorem history_valid_served_witness :
    dirWith .absent (.present "hist") "history.json" = FileState.present "hist" ∧
    constDecode (.arr sampleHistory) "hist" = some (.arr sampleHistory) ∧
    (historyHandler (constDecode (.arr sampleHistory)) (dirWith .absent (.present "hist"))
        = { status := 200, body := .arr sampleHistory } ∧
      (historyHandler (constDecode (.arr sampleHistory))
          (dirWith .absent (.present "hist"))).body.elems = sampleHistory ∧
      (historyHandler (constDecode (.arr sampleHistory))
          (dirWith .absent (.present "hist"))).body.elems.getLast? = sampleHistory.getLast?) :=
  ⟨rfl, rfl,
    history_valid_served (constDecode (.arr sampleHistory)) (dirWith .absent (.present "hist"))
      "hist" sampleHistory rfl rfl⟩

/-- C6: the read service is read-only: handling a request to any of its
endpoints leaves the data directory (every file in it) unchanged, for every
decoder and every initial directory state. -/
theorem api_read_only (decode : String → Option Json) (e : Endpoint) (d : DataDir) :
    (handleRequest decode e d).2 = d := by
  cases e <;>
    simp [handleRequest, endpointProg, rootProg, latestProg, historyProg, runFs]

/-- C9: the `/latest` handler is total and conflates non-`ENOENT` read
failures with decode errors: an unreadable `latest.json` whose error code
is not `ENOENT` yields HTTP 500 with detail `Error decoding latest.json`,
and every `/latest` request (any decoder, any directory) yields status 200,
404 or 500 — the handler is a total function, so no request escapes it. -/
theorem latest_total_conflates (decode : String → Option Json) (d : DataDir) (code : String)
    (h : d "latest.json" = .unreadable code) (hne : code ≠ "ENOENT") :
    latestHandler decode d = { status := 500, body := detailBody "Error decoding latest.json" } ∧
    ∀ (dec : String → Option Json) (d2 : DataDir),
      (latestHandler dec d2).status = 200 ∨ (latestHandler dec d2).status = 404 ∨
      (latestHandler dec d2).status = 500 := by
  constructor
  · simp [latestHandler, handleRequest, endpointProg, latestProg, runFs, readFileFs, h, hne]
  · intro dec d2
    simp only [latestHandler, handleRequest, endpointProg, latestProg, runFs, readFileFs]
    cases hf : d2 "latest.json" with
    | absent => simp
    | present c =>
      cases hdec : dec c with
      | none => simp [hdec]
      | some j => simp [hdec]
    | unreadable c2 =>
      by_cases hc : c2 = "ENOENT" <;> simp [hc]

/-- Witness for C9 at a directory whose `latest.json` is unreadable with
code `EACCES`. -/
theorem latest_total_conflates_witness :
    dirWith (.unreadable "EACCES") .absent "latest.json" = FileState.unreadable "EACCES" ∧
    "EACCES" ≠ "ENOENT" ∧
    (latestHandler noneDecode (dirWith (.unreadable "EACCES") .absent)
        = { status := 500, body := detailBody "Error decoding latest.json" } ∧
      ∀ (dec : String → Option Json) (d2 : DataDir),
        (latestHandler dec d2).status = 200 ∨ (latestHandler dec d2).status = 404 ∨
        (latestHandler dec d2).status = 500) :=
  ⟨rfl, by decide,
    latest_total_conflates noneDecode (dirWith (.unreadable "EACCES") .absent) "EACCES"
      rfl (by decide)⟩

/-- C10: neither handler validates the schema of decoded data: whatever
JSON value the file content decodes to — of any shape, e.g. an object
where a list of records is documented — is served verbatim with HTTP 200,
by `/latest` and `/history` alike. -/
theorem no_schema_validation (decode : String → Option Json) (d : DataDir)
    (cl ch : String) (jl jh : Json)
    (hl : d "latest.json" = .present cl) (hdl : decode cl = some jl)
    (hh : d "history.json" = .present ch) (hdh : decode ch = some jh) :
    latestHandler decode d = { status := 200, body := jl } ∧
    historyHandler decode d = { status := 200, body := jh } := by
  constructor
  · simp [latestHandler, handleRequest, endpointProg, latestProg, runFs, readFileFs, hl, hdl]
  · simp [historyHandler, handleRequest, endpointProg, historyProg, runFs, readFileFs, hh, hdh]

/-- Witness for C10: content decoding to a JSON object that is not a list
of records is served verbatim by both handlers, in particular by
`/history` where a list is documented. -/
theorem no_schema_validation_witness :
    dirWith (.present "n") (.present "n") "latest.json" = FileState.present "n" ∧
    constDecode (.obj [("unexpected", .num 7)]) "n" = some (.obj [("unexpected", .num 7)]) ∧
    dirWith (.present "n") (.present "n") "history.json" = FileState.present "n" ∧
    constDecode (.obj [("unexpected", .num 7)]) "n" = some (.obj [("unexpected", .num 7)]) ∧
    (latestHandler (constDecode (.obj [("unexpected", .num 7)])) (dirWith (.present "n") (.present "n"))
        = { status := 200, body := .obj [("unexpected", .num 7)] } ∧
      historyHandler (constDecode (.obj [("unexpected", .num 7)])) (dirWith (.present "n") (.present "n"))
        = { status := 200, body := .obj [("unexpected", .num 7)] }) :=
  ⟨rfl, rfl, rfl, rfl,
    no_schema_validation (constDecode (.obj [("unexpected", .num 7)])) (dirWith (.present "n") (.present "n"))
      "n" "n" (.obj [("unexpected", .num 7)]) (.obj [("unexpected", .num 7)]) rfl rfl rfl rfl⟩

/-!
The Reading Parser (spec §3, §4.4, §8). The scraper's parser source is not
part of this tree, so it is modelled from the specification. A Reading
value with exactly three fractional digits is represented by its count of
thousandths: the natural number `m` stands for the decimal `m / 1000`,
whose canonical string form is `INTEGER.FFF`.
-/

/-- Modelled from the spec: the character of a decimal digit `d < 10`. -/
def digitToChar (d : Nat) : Char := Char.ofNat (48 + d)

/-- Modelled from the spec: the digit a character denotes. -/
def charToDigit (c : Char) : Nat := c.toNat - 48

/-- Modelled from the spec: whether a character is a decimal digit. -/
def isDigitChar (c : Char) : Bool := decide (48 ≤ c.toNat) && decide (c.toNat ≤ 57)

/-- Modelled from the spec: decimal digit characters of `n`, most
significant first, prepended to `acc`. -/
def natToDigitsAux (n : Nat) (acc : List Char) : List Char :=
  if n < 10 then digitToChar n :: acc
  else natToDigitsAux (n / 10) (digitToChar (n % 10) :: acc)
termination_by n
decreasing_by omega

/-- Modelled from the spec: the decimal digit string of `n`. -/
def natToDigits (n : Nat) : List Char := natToDigitsAux n []

/-- Modelled from the spec: the exactly-three-digit fractional part of a
reading, for `k < 1000` thousandths. -/
def frac3 (k : Nat) : List Char :=
  [digitToChar (k / 100), digitToChar (k / 10 % 10), digitToChar (k % 10)]

/-- Modelled from the spec: the numeric value of a digit string. -/
def digitsVal (l : List Char) : Nat :=
  l.foldl (fun acc c => acc * 10 + charToDigit c) 0

/-- Modelled from the spec: the canonical `INTEGER.FFF` string of the
reading worth `m` thousandths. -/
def formatReading (m : Nat) : String :=
  String.mk (natToDigits (m / 1000) ++ '.' :: frac3 (m % 1000))

/-- Modelled from the spec: the Reading Parser on a character sequence —
split at the decimal point, reject when the integer part is empty or
non-numeric or when the fractional part is not exactly 3 digits, otherwise
yield the value in thousandths. -/
def parseChars (l : List Char) : Option Nat :=
  let intDigits := l.takeWhile (fun c => c != '.')
  match l.dropWhile (fun c => c != '.') with
  | [] => none
  | _ :: fracDigits =>
    if intDigits.isEmpty then none
    else if !intDigits.all isDigitChar then none
    else if fracDigits.length != 3 then none
    else if !fracDigits.all isDigitChar then none
    else some (digitsVal intDigits * 1000 + digitsVal fracDigits)

/-- Modelled from the spec: the Reading Parser, enforcing the fixed
`INTEGER.FFF` lexical format. -/
def parseReading (s : String) : Option Nat := parseChars s.data

theorem charToDigit_digitToChar (d : Nat) (h : d < 10) :
    charToDigit (digitToChar d) = d := by
  interval_cases d <;> rfl

theorem isDigitChar_digitToChar (d : Nat) (h : d < 10) :
    isDigitChar (digitToChar d) = true := by
  interval_cases d <;> rfl

theorem digitToChar_ne_dot (d : Nat) (h : d < 10) :
    (digitToChar d != '.') = true := by
  interval_cases d <;> rfl

theorem natToDigitsAux_eq (n : Nat) :
    ∀ acc, natToDigitsAux n acc = natToDigits n ++ acc := by
  induction n using Nat.strong_induction_on with
  | _ n ih =>
    intro acc
    by_cases h : n < 10
    · rw [natToDigits, natToDigitsAux.eq_def n acc, natToDigitsAux.eq_def n []]
      simp [h]
    · have hd : n / 10 < n := Nat.div_lt_self (by omega) (by omega)
      rw [natToDigits, natToDigitsAux.eq_def n acc, natToDigitsAux.eq_def n []]
      simp only [h, ite_false]
      rw [ih (n / 10) hd (digitToChar (n % 10) :: acc),
        ih (n / 10) hd (digitToChar (n % 10) :: [])]
      simp

theorem digitsVal_foldl_init (l : List Char) : ∀ i : Nat,
    l.foldl (fun acc c => acc * 10 + charToDigit c) i
      = i * 10 ^ l.length + digitsVal l := by
  induction l with
  | nil => intro i; simp [digitsVal]
  | cons c t ih =>
    intro i
    simp only [List.foldl_cons, List.length_cons, digitsVal]
    rw [ih (i * 10 + charToDigit c), ih (0 * 10 + charToDigit c)]
    simp [pow_succ]
    ring

theorem digitsVal_append (a b : List Char) :
    digitsVal (a ++ b) = digitsVal a * 10 ^ b.length + digitsVal b := by
  rw [digitsVal, List.foldl_append]
  exact digitsVal_foldl_init b (digitsVal a)

theorem natToDigits_spec (n : Nat) :
    natToDigits n ≠ [] ∧
    (∀ c ∈ natToDigits n, isDigitChar c = true ∧ (c != '.') = true) ∧
    digitsVal (natToDigits n) = n := by
  induction n using Nat.strong_induction_on with
  | _ n ih =>
    by_cases h : n < 10
    · have e : natToDigits n = [digitToChar n] := by
        rw [natToDigits, natToDigitsAux.eq_def]; simp [h]
      rw [e]
      refine ⟨by simp, ?_, ?_⟩
      · intro c hc
        simp only [List.mem_singleton] at hc
        subst hc
        exact ⟨isDigitChar_digitToChar n h, digitToChar_ne_dot n h⟩
      · simp [digitsVal, charToDigit_digitToChar n h]
    · have hd : n / 10 < n := Nat.div_lt_self (by omega) (by omega)
      have hm : n % 10 < 10 := Nat.mod_lt _ (by omega)
      have e : natToDigits n = natToDigits (n / 10) ++ [digitToChar (n % 10)] := by
        conv_lhs => rw [natToDigits, natToDigitsAux.eq_def]
        simp only [h, if_neg, ite_false]
        exact natToDigitsAux_eq (n / 10) [digitToChar (n % 10)]
      obtain ⟨hne, hall, hval⟩ := ih (n / 10) hd
      rw [e]
      refine ⟨by simp, ?_, ?_⟩
      · intro c hc
        rcases List.mem_append.mp hc with hc | hc
        · exact hall c hc
        · simp only [List.mem_singleton] at hc
          subst hc
          exact ⟨isDigitChar_digitToChar _ hm, digitToChar_ne_dot _ hm⟩
      · rw [digitsVal_append, hval]
        simp [digitsVal, charToDigit_digitToChar _ hm]
        omega

theorem takeWhile_append_all (p : Char → Bool) (l r : List Char)
    (h : ∀ c ∈ l, p c = true) :
    (l ++ r).takeWhile p = l ++ r.takeWhile p := by
  induction l with
  | nil => simp
  | cons c t ih =>
    have hc : p c = true := h c (by simp)
    simp only [List.cons_append, List.takeWhile_cons, hc, ite_true]
    rw [ih (fun x hx => h x (by simp [hx]))]

theorem dropWhile_append_all (p : Char → Bool) (l r : List Char)
    (h : ∀ c ∈ l, p c = true) :
    (l ++ r).dropWhile p = r.dropWhile p := by
  induction l with
  | nil => simp
  | cons c t ih =>
    have hc : p c = true := h c (by simp)
    simp only [List.cons_append, List.dropWhile_cons, hc, ite_true]
    exact ih (fun x hx => h x (by simp [hx]))

theorem digitsVal_frac3 (k : Nat) (h : k < 1000) : digitsVal (frac3 k) = k := by
  have h1 : k / 100 < 10 := by omega
  have h2 : k / 10 % 10 < 10 := Nat.mod_lt _ (by omega)
  have h3 : k % 10 < 10 := Nat.mod_lt _ (by omega)
  simp [digitsVal, frac3, charToDigit_digitToChar _ h1,
    charToDigit_digitToChar _ h2, charToDigit_digitToChar _ h3]
  omega

theorem frac3_all_digits (k : Nat) (h : k < 1000) :
    (frac3 k).all isDigitChar = true := by
  have h1 : k / 100 < 10 := by omega
  have h2 : k / 10 % 10 < 10 := Nat.mod_lt _ (by omega)
  have h3 : k % 10 < 10 := Nat.mod_lt _ (by omega)
  simp [frac3, isDigitChar_digitToChar _ h1,
    isDigitChar_digitToChar _ h2, isDigitChar_digitToChar _ h3]

/-- C7: the Reading Parser round-trips: for every reading value (every
count `m` of thousandths, i.e. every value whose canonical form is a valid
`INTEGER.FFF` string), parsing the formatted string yields back exactly
`m`. -/
theorem parse_format_roundtrip (m : Nat) :
    parseReading (formatReading m) = some m := by
  have hk : m % 1000 < 1000 := Nat.mod_lt _ (by omega)
  obtain ⟨hne, hall, hval⟩ := natToDigits_spec (m / 1000)
  have hallp : ∀ c ∈ natToDigits (m / 1000), (c != '.') = true :=
    fun c hc => (hall c hc).2
  have htake :
      (natToDigits (m / 1000) ++ '.' :: frac3 (m % 1000)).takeWhile (fun c => c != '.')
        = natToDigits (m / 1000) := by
    rw [takeWhile_append_all _ _ _ hallp]
    simp [List.takeWhile_cons]
  have hdrop :
      (natToDigits (m / 1000) ++ '.' :: frac3 (m % 1000)).dropWhile (fun c => c != '.')
        = '.' :: frac3 (m % 1000) := by
    rw [dropWhile_append_all _ _ _ hallp]
    simp [List.dropWhile_cons]
  have hie : (natToDigits (m / 1000)).isEmpty = false := by
    cases hx : natToDigits (m / 1000) with
    | nil => exact absurd hx hne
    | cons a t => rfl
  have hia : (natToDigits (m / 1000)).all isDigitChar = true :=
    List.all_eq_true.mpr (fun c hc => (hall c hc).1)
  have hdata : (formatReading m).data
      = natToDigits (m / 1000) ++ '.' :: frac3 (m % 1000) := rfl
  have hlen : (frac3 (m % 1000)).length = 3 := rfl
  have hfa : (frac3 (m % 1000)).all isDigitChar = true :=
    frac3_all_digits (m % 1000) hk
  rw [parseReading, hdata, parseChars]
  simp only [htake, hdrop, hie, hia, hlen, hfa, Bool.not_true, Bool.false_eq_true,
    if_false, bne_self_eq_false]
  rw [hval, digitsVal_frac3 (m % 1000) hk, Option.some_inj]
  omega

/-!
The Validation Engine's history read path (spec §4.5, §4.6). The scraper's
validation source is not part of this tree, so it is modelled from the
specification.
-/

/-- Modelled from the spec: a stored accepted Reading — timestamp plus
value in thousandths. -/
structure HistoryEntry where
  timestamp : String
  value : Nat

/-- Modelled from the spec: the Store's read path used by the Validation
Engine — a missing or unreadable history file, or one whose content fails
to decode, is treated as the empty history (fail-open). -/
def loadHistoryEntries (decodeHist : String → Option (List HistoryEntry))
    (f : FileState) : List HistoryEntry :=
  match f with
  | .present c => (decodeHist c).getD []
  | _ => []

/-- Modelled from the spec: the Validation Engine's accept/reject policy —
accept unconditionally with no prior history (cold start); otherwise
reject a drop below the previous value beyond the noise tolerance, reject
a rise beyond the maximum plausible delta, accept otherwise. -/
def validateReading (tolerance maxDelta : Nat) (history : List HistoryEntry)
    (newValue : Nat) : Bool :=
  match history.getLast? with
  | none => true
  | some prev =>
    if newValue + tolerance < prev.value then false
    else if prev.value + maxDelta < newValue then false
    else true

/-- C8: when the history file is missing, unreadable, or present but
undecodable, the Validation Engine sees the empty history (fail-open) and
accepts every newly parsed reading unconditionally, exactly as in the
cold-start case. -/
theorem failopen_accepts_unconditionally
    (decodeHist : String → Option (List HistoryEntry)) (f : FileState)
    (tolerance maxDelta newValue : Nat)
    (h : f = .absent ∨ (∃ code, f = .unreadable code) ∨
      (∃ c, f = .present c ∧ decodeHist c = none)) :
    loadHistoryEntries decodeHist f = [] ∧
    validateReading tolerance maxDelta (loadHistoryEntries decodeHist f) newValue = true ∧
    validateReading tolerance maxDelta [] newValue = true := by
  have hempty : loadHistoryEntries decodeHist f = [] := by
    rcases h with h | ⟨code, h⟩ | ⟨c, h, hdec⟩ <;> subst h <;>
      simp [loadHistoryEntries]
    simp [hdec]
  exact ⟨hempty, by rw [hempty]; rfl, rfl⟩

/-- Witness for C8 at a malformed (undecodable) present history file. -/
theorem failopen_accepts_unconditionally_witness :
    (FileState.present "garbage" = FileState.absent ∨
      (∃ code, FileState.present "garbage" = FileState.unreadable code) ∨
      (∃ c, FileState.present "garbage" = FileState.present c ∧
        (fun _ => (none : Option (List HistoryEntry))) c = none)) ∧
    (loadHistoryEntries (fun _ => none) (FileState.present "garbage") = [] ∧
      validateReading 10 5000
        (loadHistoryEntries (fun _ => none) (FileState.present "garbage")) 123456 = true ∧
      validateReading 10 5000 [] 123456 = true) :=
  ⟨Or.inr (Or.inr ⟨"garbage", rfl, rfl⟩),
    failopen_accepts_unconditionally (fun _ => none) (FileState.present "garbage")
      10 5000 123456 (Or.inr (Or.inr ⟨"garbage", rfl, rfl⟩))⟩

end HaBvk
